import Mathlib

/-!
Shallow embedding of the trading core of `upbit_ml_paperbot`
(paper_trader.py, risk_engine.py, position_sizer.py, trade_guard.py,
realtime_trader.py) and proofs about it.

Python floats are modelled as rationals (ℚ); wall-clock timestamps as
rationals measured in minutes, with the calendar date of a timestamp
being the floor of time / 1440; tick timestamps in milliseconds as
naturals, matching the source's integer `tms` field.  Optional values
are `Option`.  Methods that mutate an object are state-passing
functions returning the updated state.
-/

/-! ## paper_trader.py -/

/-- Entries of the paper trader's `history` list (`paper_trader.py`
appends a BUY dict or a SELL dict). -/
inductive HistEntry where
  | buyRec (time price qty spend_krw fee balance : ℚ)
  | sellRec (time price pnl balance : ℚ) (reason : String)
deriving DecidableEq

/-- State of `PaperTrader` (`paper_trader.py`, `__init__`). -/
structure PaperTrader where
  initial_balance : ℚ
  balance : ℚ
  position : ℚ
  entry_price : Option ℚ
  entry_notional : Option ℚ
  fee : ℚ
  history : List HistEntry
deriving DecidableEq

/-- Python `PaperTrader(initial_balance=1_000_000, fee=0.001)` with the
constructor's default arguments. -/
def initTrader : PaperTrader :=
  ⟨1000000, 1000000, 0, none, none, 1/1000, []⟩

/-- Python `PaperTrader.can_buy`: `self.position == 0 and self.balance > 0`. -/
def PaperTrader.can_buy (s : PaperTrader) : Prop :=
  s.position = 0 ∧ 0 < s.balance

instance (s : PaperTrader) : Decidable s.can_buy :=
  inferInstanceAs (Decidable (s.position = 0 ∧ 0 < s.balance))

/-- Python `PaperTrader.can_sell`: `self.position > 0`. -/
def PaperTrader.can_sell (s : PaperTrader) : Prop :=
  0 < s.position

instance (s : PaperTrader) : Decidable s.can_sell :=
  inferInstanceAs (Decidable (0 < s.position))

/-- Python `PaperTrader.buy(price, timestamp, spend_krw=None)`.  A missing
`spend_krw` defaults to the whole balance; the amount is clamped to
`[0, balance]` and a clamped amount `≤ 0` is a no-op. -/
def PaperTrader.buy (s : PaperTrader) (price ts : ℚ) (spend_krw : Option ℚ) :
    PaperTrader :=
  if s.can_buy then
    let spend0 := spend_krw.getD s.balance
    let spend := max 0 (min spend0 s.balance)
    if spend ≤ 0 then s
    else
      let fee_paid := spend * s.fee
      let cost := spend - fee_paid
      let qty := cost / price
      { s with
        position := qty
        entry_price := some price
        entry_notional := some spend
        balance := s.balance - spend
        history := s.history ++
          [HistEntry.buyRec ts price qty spend fee_paid (s.balance - spend)] }
  else s

/-- Python `PaperTrader.sell(price, timestamp, reason="EXIT")`. When
`entry_notional` is `None` the source falls back to
`position * entry_price`; there Python would raise if `entry_price`
were also `None`, a state unreachable under the account invariant, and
the embedding uses `getD 0` in that dead corner. -/
def PaperTrader.sell (s : PaperTrader) (price ts : ℚ) (reason : String) :
    PaperTrader :=
  if s.can_sell then
    let proceeds := s.position * price * (1 - s.fee)
    let entryN := s.entry_notional.getD (s.position * s.entry_price.getD 0)
    let pnl := proceeds - entryN
    { s with
      balance := s.balance + proceeds
      position := 0
      entry_price := none
      entry_notional := none
      history := s.history ++
        [HistEntry.sellRec ts price pnl (s.balance + proceeds) reason] }
  else s

/-- Python `PaperTrader.check_tp_sl(high, low, timestamp, tp, sl)`: intrabar
TP/SL evaluation with the SL-first tie-break.  The source reads
`self.entry_price` directly (Python would raise on `None`, unreachable
under the account invariant; the embedding uses `getD 0` there). -/
def PaperTrader.check_tp_sl (s : PaperTrader) (high low ts tp sl : ℚ) :
    PaperTrader :=
  if s.can_sell then
    let e := s.entry_price.getD 0
    let tp_price := e * (1 + tp)
    let sl_price := e * (1 - sl)
    if tp_price ≤ high ∧ low ≤ sl_price then s.sell sl_price ts "SL_TIE"
    else if tp_price ≤ high then s.sell tp_price ts "TP"
    else if low ≤ sl_price then s.sell sl_price ts "SL"
    else s
  else s

/-- Concrete Long state used in witnesses: entry at 100, one unit held. -/
def tieState : PaperTrader :=
  ⟨1000000, 0, 1, some 100, some 100, 1/1000, []⟩

/-- One call into the public ledger interface of `PaperTrader`. -/
inductive LedgerOp where
  | buyOp (price ts : ℚ) (spend_krw : Option ℚ)
  | sellOp (price ts : ℚ) (reason : String)
  | checkOp (high low ts tp sl : ℚ)
deriving DecidableEq

/-- Apply one ledger operation to a trader state. -/
def applyOp (s : PaperTrader) : LedgerOp → PaperTrader
  | .buyOp price ts spend_krw => s.buy price ts spend_krw
  | .sellOp price ts reason => s.sell price ts reason
  | .checkOp high low ts tp sl => s.check_tp_sl high low ts tp sl

/-- Apply a sequence of ledger operations from left to right. -/
def applyOps (s : PaperTrader) (ops : List LedgerOp) : PaperTrader :=
  ops.foldl applyOp s

/-- The restriction claim C3 places on operations: every supplied price
(the buy/sell fill price and the bar's high and low) is positive. -/
def validOpClaim : LedgerOp → Prop
  | .buyOp price _ _ => 0 < price
  | .sellOp price _ _ => 0 < price
  | .checkOp high low _ _ _ => 0 < high ∧ 0 < low

/-- The amended restriction: additionally each `check_tp_sl` call has
`tp ≥ -1`, so the computed take-profit exit price is nonnegative. -/
def validOp : LedgerOp → Prop
  | .buyOp price _ _ => 0 < price
  | .sellOp price _ _ => 0 < price
  | .checkOp high low _ tp _ => 0 < high ∧ 0 < low ∧ -1 ≤ tp

/-- The AccountState invariant of claim C3: nonnegative position and
balance, and the position is open exactly when the entry price is set,
exactly when the entry notional is set. -/
def AccountInv (s : PaperTrader) : Prop :=
  0 ≤ s.balance ∧ 0 ≤ s.position ∧
  (0 < s.position ↔ s.entry_price ≠ none) ∧
  (0 < s.position ↔ s.entry_notional ≠ none)

/-- Strengthened inductive invariant: additionally any recorded entry
price is positive (entries only happen through `buy` at a positive
price) and the configured fee lies in `[0, 1)` (it is `0.001` in every
constructor call of the repository). -/
def AccountInvAux (s : PaperTrader) : Prop :=
  AccountInv s ∧ (∀ e, s.entry_price = some e → 0 < e) ∧ 0 ≤ s.fee ∧ s.fee < 1

/-- Operation sequence breaking the literal claim C3: an all-in buy at
price 100 followed by a TP/SL check whose `tp = -2` makes the
take-profit trigger price negative while high and low stay positive. -/
def badOps : List LedgerOp :=
  [.buyOp 100 0 none, .checkOp 100 100 1 (-2) (9/1000)]

/-- A benign operation sequence used to witness the amended claim C3. -/
def goodOps : List LedgerOp :=
  [.buyOp 100 0 none, .checkOp 102 99 1 (15/1000) (9/1000)]

/-! ## position_sizer.py -/

/-- Python `PositionSizer._clamp(x, lo, hi) = max(lo, min(hi, x))`. -/
def clamp (x lo hi : ℚ) : ℚ := max lo (min hi x)

/-- Python `PositionSizeResult` dataclass. -/
structure PositionSizeResult where
  krw_to_spend : ℚ
  qty : Option ℚ
  stop_price : Option ℚ
  risk_krw : ℚ
deriving DecidableEq

/-- Configuration fields of `PositionSizer`. -/
structure PositionSizer where
  risk_per_trade_pct : ℚ
  max_allocation_pct : ℚ
  min_order_krw : ℚ
  fee_roundtrip_pct : ℚ
deriving DecidableEq

/-- The `PositionSizeResult(0.0, None, None, 0.0)` value the sizer
returns on its fail-closed paths. -/
def zeroSizing : PositionSizeResult := ⟨0, none, none, 0⟩

/-- Python `PositionSizer.size_from_stop_pct(equity_krw, stop_pct, price=None)`.
The `1e-9` guard of the source is the rational `1/1000000000`. -/
def PositionSizer.size_from_stop_pct (p : PositionSizer)
    (equity_krw stop_pct : ℚ) (price : Option ℚ) : PositionSizeResult :=
  if stop_pct ≤ 0 then zeroSizing
  else
    let risk_budget_krw := equity_krw * (p.risk_per_trade_pct / 100)
    let fee_component := p.fee_roundtrip_pct / 100
    let risk_per_invested := stop_pct + fee_component
    let cap := equity_krw * (p.max_allocation_pct / 100)
    let krw_to_spend := clamp (risk_budget_krw / max risk_per_invested (1/1000000000)) 0 cap
    if krw_to_spend < p.min_order_krw then zeroSizing
    else
      match price with
      | none => ⟨krw_to_spend, none, none, risk_budget_krw⟩
      | some pr =>
          ⟨krw_to_spend, some (krw_to_spend * (1 - fee_component) / pr),
            some (pr * (1 - stop_pct)), krw_to_spend * risk_per_invested⟩

/-- Python `PositionSizer.size_from_atr_pct`: stop distance `atr_pct *
stop_atr_mult`, then delegate. -/
def PositionSizer.size_from_atr_pct (p : PositionSizer)
    (equity_krw atr_pct stop_atr_mult : ℚ) (price : Option ℚ) :
    PositionSizeResult :=
  p.size_from_stop_pct equity_krw (atr_pct * stop_atr_mult) price

/-- Python `PositionSizer(risk_per_trade_pct=0.30, max_allocation_pct=10.0,
min_order_krw=5000.0, fee_roundtrip_pct=0.10)`: the constructor
defaults. -/
def defaultSizer : PositionSizer := ⟨3/10, 10, 5000, 1/10⟩

/-- The `krw_to_spend` component of a sizing, as a function of equity
and stop distance (the quantity claims C6/C7 quantify over; it does not
depend on the optional price argument). -/
def krw_spend (p : PositionSizer) (equity stop : ℚ) : ℚ :=
  (p.size_from_stop_pct equity stop none).krw_to_spend

/-- The cap-clamped spend amount the source compares against
`min_order_krw` (the internal `krw_to_spend` after clamping). -/
def clampedSpend (p : PositionSizer) (equity stop : ℚ) : ℚ :=
  clamp (equity * (p.risk_per_trade_pct / 100) /
      max (stop + p.fee_roundtrip_pct / 100) (1/1000000000))
    0 (equity * (p.max_allocation_pct / 100))

/-- Modelled from the spec's words in claim C6: the "unclamped value"
`equity*riskPerTradePct/100 / (stopPct + feeRoundtripPct/100)`. -/
def specUnclampedSpend (p : PositionSizer) (equity stop : ℚ) : ℚ :=
  equity * (p.risk_per_trade_pct / 100) / (stop + p.fee_roundtrip_pct / 100)

/-! ## risk_engine.py -/

/-- Calendar date of a timestamp in minutes: `datetime.date()` becomes
the day index ⌊t / 1440⌋. -/
def dateOf (t : ℚ) : ℤ := ⌊t / 1440⌋

/-- State and configuration of `RiskEngine`. -/
structure RiskEngine where
  max_daily_loss_pct : ℚ
  max_consecutive_losses : ℕ
  cooldown_minutes : ℚ
  start_of_day_balance : Option ℚ
  current_day : Option ℤ
  consecutive_losses : ℕ
  cooldown_until : Option ℚ
deriving DecidableEq

/-- Python `RiskEngine(max_daily_loss_pct=3.0, max_consecutive_losses=5,
cooldown_minutes=60)` with fresh state. -/
def defaultRiskEngine : RiskEngine := ⟨3, 5, 60, none, none, 0, none⟩

/-- Python `RiskEngine._reset_day`. -/
def RiskEngine.reset_day (r : RiskEngine) (balance now : ℚ) : RiskEngine :=
  { r with
    start_of_day_balance := some balance
    current_day := some (dateOf now)
    consecutive_losses := 0
    cooldown_until := none }

/-- Python `RiskEngine._check_new_day`: reset when the stored day differs from
`now`'s calendar date. -/
def RiskEngine.check_new_day (r : RiskEngine) (balance now : ℚ) : RiskEngine :=
  if r.current_day ≠ some (dateOf now) then r.reset_day balance now else r

/-- Python `RiskEngine.daily_loss_pct`.  ℚ division is total, so this is `0`
when the stored start-of-day balance is `0`, where Python would raise
`ZeroDivisionError`; no claim touches that corner. -/
def RiskEngine.daily_loss_pct (r : RiskEngine) (balance : ℚ) : ℚ :=
  match r.start_of_day_balance with
  | none => 0
  | some s => (s - balance) / s * 100

/-- Python `RiskEngine.daily_loss_exceeded`: `daily_loss_pct >= max_daily_loss_pct`. -/
def RiskEngine.daily_loss_exceeded (r : RiskEngine) (balance : ℚ) : Bool :=
  decide (r.max_daily_loss_pct ≤ r.daily_loss_pct balance)

/-- Python `RiskEngine.record_trade_result(pnl, now)`. -/
def RiskEngine.record_trade_result (r : RiskEngine) (pnl now : ℚ) : RiskEngine :=
  let r1 :=
    if pnl < 0 then { r with consecutive_losses := r.consecutive_losses + 1 }
    else { r with consecutive_losses := 0 }
  if r1.max_consecutive_losses ≤ r1.consecutive_losses then
    { r1 with cooldown_until := some (now + r1.cooldown_minutes) }
  else r1

/-- Python `RiskEngine.in_cooldown`: `cooldown_until is not None and now <
cooldown_until`. -/
def RiskEngine.in_cooldown (r : RiskEngine) (now : ℚ) : Bool :=
  match r.cooldown_until with
  | none => false
  | some c => decide (now < c)

/-- Python `RiskEngine.can_trade(balance, now)`: lazy day initialization, day
rollover, then the daily-loss and cooldown checks.  Returns the boolean
verdict together with the (possibly mutated) engine state. -/
def RiskEngine.can_trade (r : RiskEngine) (balance now : ℚ) :
    Bool × RiskEngine :=
  let r1 := if r.current_day = none then r.reset_day balance now else r
  let r2 := r1.check_new_day balance now
  if r2.daily_loss_exceeded balance then (false, r2)
  else if r2.in_cooldown now then (false, r2)
  else (true, r2)

/-! ## trade_guard.py -/

/-- Python `TradeDecision`. -/
structure TradeDecision where
  allowed : Bool
  reason : String
  sizing : Option PositionSizeResult
deriving DecidableEq

/-- Python `TradeGuard.evaluate_entry`.  The guard object holds a `RiskEngine`
and a `PositionSizer`; they are the first two arguments here, and the
state the risk engine is left in after the embedded `can_trade` call is
returned alongside the decision. -/
def evaluate_entry (re : RiskEngine) (sizer : PositionSizer)
    (equity_krw now price : ℚ) (stop_pct atr_pct : Option ℚ)
    (stop_atr_mult : ℚ) : TradeDecision × RiskEngine :=
  let res := re.can_trade equity_krw now
  if res.1 then
    match stop_pct with
    | some sp =>
        let sizing := sizer.size_from_stop_pct equity_krw sp (some price)
        if sizing.krw_to_spend ≤ 0 then
          (⟨false, "size_zero_or_below_min", none⟩, res.2)
        else (⟨true, "ok", some sizing⟩, res.2)
    | none =>
        match atr_pct with
        | some ap =>
            let sizing := sizer.size_from_atr_pct equity_krw ap stop_atr_mult (some price)
            if sizing.krw_to_spend ≤ 0 then
              (⟨false, "size_zero_or_below_min", none⟩, res.2)
            else (⟨true, "ok", some sizing⟩, res.2)
        | none => (⟨false, "no_stop_defined", none⟩, res.2)
  else (⟨false, "risk_gate_blocked", none⟩, res.2)

/-! ## realtime_trader.py: CandleBuilder5m -/

/-- One websocket trade tick: price `tp`, volume `tv`, epoch-millisecond
timestamp `tms`. -/
structure Tick where
  price : ℚ
  vol : ℚ
  tms : ℕ
deriving DecidableEq

/-- State of one 5-minute candle under construction. -/
structure Candle where
  time : ℕ
  open_ : ℚ
  high : ℚ
  low : ℚ
  close : ℚ
  volume : ℚ
deriving DecidableEq

/-- Python `CandleBuilder5m._bucket`: the timestamp floored to its 5-minute
boundary.  The source zeroes seconds/microseconds and floors the minute
to a multiple of 5, which for nonnegative epoch times equals flooring
the whole millisecond timestamp to a multiple of 300000. -/
def bucket5m (tms_ms : ℕ) : ℕ := tms_ms / 300000 * 300000

/-- Python `CandleBuilder5m.update_trade` for one market: given the in-progress
candle (if any) and a tick, returns `(closed candle?, current candle)`.
Markets are independent entries of a dict in the source, so one market's
state is a single `Option Candle`. -/
def update_trade (cur : Option Candle) (price vol : ℚ) (tms : ℕ) :
    Option Candle × Candle :=
  let bucket := bucket5m tms
  match cur with
  | none => (none, ⟨bucket, price, price, price, price, vol⟩)
  | some c =>
      if c.time = bucket then
        (none, { c with
          high := max c.high price
          low := min c.low price
          close := price
          volume := c.volume + vol })
      else (some c, ⟨bucket, price, price, price, price, vol⟩)

/-- Feed a list of ticks through the builder, collecting the closed
candles in emission order. -/
def runTicks : Option Candle → List Tick → Option Candle × List Candle
  | cur, [] => (cur, [])
  | cur, t :: rest =>
      let step := update_trade cur t.price t.vol t.tms
      let res := runTicks (some step.2) rest
      (res.1, step.1.toList ++ res.2)

/-- The OHLC sanity bounds of claim C9: `low ≤ open ≤ high` and
`low ≤ close ≤ high`. -/
def OHLCok (c : Candle) : Prop :=
  c.low ≤ c.open_ ∧ c.open_ ≤ c.high ∧ c.low ≤ c.close ∧ c.close ≤ c.high

/-- Out-of-order tick sequence breaking the literal claim C9: buckets
3000000, 0, 3000000. -/
def badTicks : List Tick := [⟨1, 1, 3000000⟩, ⟨1, 1, 0⟩, ⟨1, 1, 3000000⟩]

/-- In-order tick sequence used to witness the amended claim C9. -/
def goodTicks : List Tick := [⟨5, 1, 0⟩, ⟨3, 2, 100000⟩, ⟨4, 1, 400000⟩, ⟨6, 1, 700000⟩]

/-- A risk engine whose day anchor matches calendar day 0, with a live
cooldown and a loss streak: used to witness the amended claim C2. -/
def sameDayEngine : RiskEngine := ⟨3, 5, 60, some 100, some 0, 2, some 120⟩

/-- A risk engine one losing trade away from cooldown
(`max_consecutive_losses = 1`) whose cooldown is already running: used
to witness claim C4. -/
def cooldownEngine : RiskEngine := ⟨3, 1, 60, some 100, some 0, 0, some 60⟩

/-! ## Theorems -/

/-- Claim C1: for a Long position with entry price `e`, a bar breaching
both thresholds (`high ≥ e*(1+tp)` and `low ≤ e*(1-sl)`) makes
`check_tp_sl` execute exactly `sell(e*(1-sl), ts, "SL_TIE")` — the fill
is the stop price, never the TP price and never the bar's close. -/
theorem check_tp_sl_tie_sells_at_stop (s : PaperTrader) (e high low ts tp sl : ℚ)
    (hpos : 0 < s.position) (hentry : s.entry_price = some e)
    (htp : e * (1 + tp) ≤ high) (hsl : low ≤ e * (1 - sl)) :
    s.check_tp_sl high low ts tp sl = s.sell (e * (1 - sl)) ts "SL_TIE" := by
  unfold PaperTrader.check_tp_sl
  rw [if_pos (show s.can_sell from hpos), hentry]
  simp only [Option.getD_some]
  rw [if_pos ⟨htp, hsl⟩]

/-- Witness for C1: at entry 100, tp = 0.015, sl = 0.009, a bar with
high = 102 and low = 99 sells at 99.1 with reason SL_TIE. -/
theorem check_tp_sl_tie_sells_at_stop_witness :
    (0 : ℚ) < tieState.position ∧ tieState.entry_price = some 100 ∧
    (100 : ℚ) * (1 - 9/1000) = 991/10 ∧
    tieState.check_tp_sl 102 99 0 (15/1000) (9/1000) =
      tieState.sell (991/10) 0 "SL_TIE" := by
  refine ⟨by norm_num [tieState], by norm_num [tieState], by norm_num, ?_⟩
  have h := check_tp_sl_tie_sells_at_stop tieState 100 102 99 0 (15/1000) (9/1000)
    (by norm_num [tieState]) (by norm_num [tieState]) (by norm_num) (by norm_num)
  rw [h]
  norm_num

/-- Claim C8: buying while Long and selling while Flat are defensive
no-ops: the whole state, history included, is unchanged. -/
theorem buy_long_sell_flat_noop (s : PaperTrader) :
    (0 < s.position → ∀ price ts spend, s.buy price ts spend = s) ∧
    (s.position = 0 → ∀ price ts reason, s.sell price ts reason = s) := by
  constructor
  · intro h price ts spend
    unfold PaperTrader.buy
    rw [if_neg]
    intro hc
    exact absurd hc.1 h.ne'
  · intro h price ts reason
    unfold PaperTrader.sell
    rw [if_neg]
    intro hc
    exact absurd h (ne_of_gt hc)

/-- Witness for C8: a Long state ignores `buy`, a Flat state ignores
`sell`. -/
theorem buy_long_sell_flat_noop_witness :
    ((0 : ℚ) < tieState.position ∧ tieState.buy 50 0 none = tieState) ∧
    (initTrader.position = 0 ∧ initTrader.sell 50 0 "EXIT" = initTrader) := by
  constructor
  · exact ⟨by norm_num [tieState],
      (buy_long_sell_flat_noop tieState).1 (by norm_num [tieState]) 50 0 none⟩
  · exact ⟨by norm_num [initTrader],
      (buy_long_sell_flat_noop initTrader).2 (by norm_num [initTrader]) 50 0 "EXIT"⟩

/-- Claim C10: `buy` with the spend amount omitted spends the entire
balance: entry notional is the prior balance, the new balance is 0 and
the position is `balance * (1 - fee) / price`. -/
theorem buy_default_spends_whole_balance (s : PaperTrader) (price ts : ℚ)
    (hflat : s.position = 0) (hbal : 0 < s.balance) (_hprice : 0 < price) :
    (s.buy price ts none).balance = 0 ∧
    (s.buy price ts none).entry_notional = some s.balance ∧
    (s.buy price ts none).position = s.balance * (1 - s.fee) / price := by
  unfold PaperTrader.buy
  rw [if_pos ⟨hflat, hbal⟩]
  simp only [Option.getD_none, min_self, max_eq_right hbal.le]
  rw [if_neg (not_le.mpr hbal)]
  refine ⟨by simp, by simp, ?_⟩
  simp only
  ring_nf

/-- Witness for C10: the fresh trader buying at price 100 with no
explicit amount goes all-in. -/
theorem buy_default_spends_whole_balance_witness :
    (initTrader.position = 0 ∧ (0 : ℚ) < initTrader.balance ∧ (0 : ℚ) < 100) ∧
    (initTrader.buy 100 0 none).balance = 0 ∧
    (initTrader.buy 100 0 none).entry_notional = some initTrader.balance ∧
    (initTrader.buy 100 0 none).position =
      initTrader.balance * (1 - initTrader.fee) / 100 :=
  ⟨⟨by norm_num [initTrader], by norm_num [initTrader], by norm_num⟩,
    buy_default_spends_whole_balance initTrader 100 0
      (by norm_num [initTrader]) (by norm_num [initTrader]) (by norm_num)⟩

/-- Lemma: `buy` at a positive price preserves the strengthened account
invariant. -/
theorem accountInvAux_buy (s : PaperTrader) (price ts : ℚ) (spend_krw : Option ℚ)
    (hp : 0 < price) (h : AccountInvAux s) :
    AccountInvAux (s.buy price ts spend_krw) := by
  by_cases hc : s.can_buy
  · simp only [PaperTrader.buy]
    rw [if_pos hc]
    by_cases hsp : max 0 (min (spend_krw.getD s.balance) s.balance) ≤ 0
    · rw [if_pos hsp]; exact h
    · rw [if_neg hsp]
      push_neg at hsp
      obtain ⟨⟨_, _, _, _⟩, _, hf0, hf1⟩ := h
      have hble : max 0 (min (spend_krw.getD s.balance) s.balance) ≤ s.balance :=
        max_le hc.2.le (min_le_right _ _)
      have hqty : 0 < (max 0 (min (spend_krw.getD s.balance) s.balance) -
          max 0 (min (spend_krw.getD s.balance) s.balance) * s.fee) / price := by
        apply div_pos _ hp
        nlinarith
      refine ⟨⟨?_, ?_, ?_, ?_⟩, ?_, ?_, ?_⟩ <;> dsimp only
      · linarith
      · exact hqty.le
      · exact iff_of_true hqty (by simp)
      · exact iff_of_true hqty (by simp)
      · intro e he
        rw [Option.some_inj] at he
        rw [← he]; exact hp
      · exact hf0
      · exact hf1
  · simp only [PaperTrader.buy]
    rw [if_neg hc]
    exact h

/-- Lemma: `sell` at a nonnegative price preserves the strengthened account
invariant. -/
theorem accountInvAux_sell (s : PaperTrader) (price ts : ℚ) (reason : String)
    (hp : 0 ≤ price) (h : AccountInvAux s) :
    AccountInvAux (s.sell price ts reason) := by
  by_cases hc : s.can_sell
  · simp only [PaperTrader.sell]
    rw [if_pos hc]
    obtain ⟨⟨hb, hpos, _, _⟩, _, hf0, hf1⟩ := h
    have hproc : 0 ≤ s.position * price * (1 - s.fee) :=
      mul_nonneg (mul_nonneg hpos hp) (by linarith)
    refine ⟨⟨?_, le_rfl, ?_, ?_⟩, ?_, hf0, hf1⟩ <;> dsimp only
    · linarith
    · simp
    · simp
    · intro e he
      exact absurd he (by simp)
  · simp only [PaperTrader.sell]
    rw [if_neg hc]
    exact h

/-- Lemma: `check_tp_sl` with positive high/low and `tp ≥ -1` preserves the
strengthened account invariant (all three exit branches fill at a
nonnegative price). -/
theorem accountInvAux_check (s : PaperTrader) (high low ts tp sl : ℚ)
    (_hh : 0 < high) (hl : 0 < low) (htp : -1 ≤ tp) (h : AccountInvAux s) :
    AccountInvAux (s.check_tp_sl high low ts tp sl) := by
  by_cases hc : s.can_sell
  · have he : 0 < s.entry_price.getD 0 := by
      obtain ⟨⟨_, _, hep, _⟩, hev, _, _⟩ := h
      rcases h' : s.entry_price with _ | e0
      · exact absurd (hep.mp hc) (by simp [h'])
      · simpa using hev e0 h'
    simp only [PaperTrader.check_tp_sl]
    rw [if_pos hc]
    by_cases h1 : s.entry_price.getD 0 * (1 + tp) ≤ high ∧
        low ≤ s.entry_price.getD 0 * (1 - sl)
    · rw [if_pos h1]
      exact accountInvAux_sell s _ ts "SL_TIE" (hl.trans_le h1.2).le h
    · rw [if_neg h1]
      by_cases h2 : s.entry_price.getD 0 * (1 + tp) ≤ high
      · rw [if_pos h2]
        exact accountInvAux_sell s _ ts "TP"
          (mul_nonneg he.le (by linarith)) h
      · rw [if_neg h2]
        by_cases h3 : low ≤ s.entry_price.getD 0 * (1 - sl)
        · rw [if_pos h3]
          exact accountInvAux_sell s _ ts "SL" (hl.trans_le h3).le h
        · rw [if_neg h3]
          exact h
  · simp only [PaperTrader.check_tp_sl]
    rw [if_neg hc]
    exact h

/-- Any sequence of valid ledger operations preserves the strengthened
account invariant. -/
theorem accountInvAux_applyOps (ops : List LedgerOp) (s : PaperTrader)
    (h : AccountInvAux s) (hv : ∀ op ∈ ops, validOp op) :
    AccountInvAux (applyOps s ops) := by
  induction ops generalizing s with
  | nil => exact h
  | cons op rest ih =>
      have hop := hv op (List.mem_cons_self op rest)
      have hrest : ∀ o ∈ rest, validOp o := fun o ho => hv o (List.mem_cons_of_mem _ ho)
      have hstep : AccountInvAux (applyOp s op) := by
        cases op with
        | buyOp price ts spend_krw => exact accountInvAux_buy s price ts spend_krw hop h
        | sellOp price ts reason => exact accountInvAux_sell s price ts reason hop.le h
        | checkOp high low ts tp sl =>
            exact accountInvAux_check s high low ts tp sl hop.1 hop.2.1 hop.2.2 h
      exact ih (applyOp s op) hstep hrest

/-- The fresh trader satisfies the strengthened invariant. -/
theorem accountInvAux_init : AccountInvAux initTrader := by
  refine ⟨⟨by norm_num [initTrader], by norm_num [initTrader],
    by norm_num [initTrader], by norm_num [initTrader]⟩, ?_,
    by norm_num [initTrader], by norm_num [initTrader]⟩
  intro e he
  simp [initTrader] at he

/-- Counterexample to claim C3 as stated: starting from the initial
state, a full-balance buy at price 100 followed by `check_tp_sl` with
high = low = 100 (both positive) and `tp = -2` sells at the negative
take-profit trigger price `-100`, driving the balance to `-998001` and
violating the invariant, even though every supplied price is
positive. -/
theorem ledger_invariant_counterexample :
    (∀ op ∈ badOps, validOpClaim op) ∧ ¬ AccountInv (applyOps initTrader badOps) := by
  constructor
  · intro op hop
    simp only [badOps, List.mem_cons, List.not_mem_nil, or_false] at hop
    rcases hop with h | h <;> subst h <;> norm_num [validOpClaim]
  · have hbal : (applyOps initTrader badOps).balance = -998001 := by
      norm_num [applyOps, badOps, List.foldl, applyOp, initTrader,
        PaperTrader.buy, PaperTrader.sell, PaperTrader.check_tp_sl,
        PaperTrader.can_buy, PaperTrader.can_sell, max_def, min_def]
    intro h
    have := h.1
    rw [hbal] at this
    norm_num at this

/-- Claim C3, amended: every sequence of ledger operations whose
supplied prices (buy/sell fills, bar highs and lows) are positive and
whose `check_tp_sl` calls have `tp ≥ -1`, applied to the initial
account state, preserves the account invariant. -/
theorem ledger_ops_preserve_invariant (ops : List LedgerOp)
    (hv : ∀ op ∈ ops, validOp op) : AccountInv (applyOps initTrader ops) :=
  (accountInvAux_applyOps ops initTrader accountInvAux_init hv).1

/-- Witness for the amended C3: a buy and a tie-break exit keep the
invariant. -/
theorem ledger_ops_preserve_invariant_witness :
    (∀ op ∈ goodOps, validOp op) ∧ AccountInv (applyOps initTrader goodOps) := by
  have hv : ∀ op ∈ goodOps, validOp op := by
    intro op hop
    simp only [goodOps, List.mem_cons, List.not_mem_nil, or_false] at hop
    rcases hop with h | h <;> subst h <;> norm_num [validOp]
  exact ⟨hv, ledger_ops_preserve_invariant goodOps hv⟩

/-- Shape of `size_from_stop_pct`: the internal cap-clamped spend is
`clampedSpend`. -/
theorem size_from_stop_pct_eq (p : PositionSizer) (equity stop : ℚ)
    (price : Option ℚ) :
    p.size_from_stop_pct equity stop price =
      if stop ≤ 0 then zeroSizing
      else if clampedSpend p equity stop < p.min_order_krw then zeroSizing
      else
        match price with
        | none =>
            ⟨clampedSpend p equity stop, none, none,
              equity * (p.risk_per_trade_pct / 100)⟩
        | some pr =>
            ⟨clampedSpend p equity stop,
              some (clampedSpend p equity stop * (1 - p.fee_roundtrip_pct / 100) / pr),
              some (pr * (1 - stop)),
              clampedSpend p equity stop * (stop + p.fee_roundtrip_pct / 100)⟩ := by
  unfold PositionSizer.size_from_stop_pct clampedSpend
  rfl

/-- The spend amount in closed form. -/
theorem krw_spend_eq (p : PositionSizer) (equity stop : ℚ) :
    krw_spend p equity stop =
      if stop ≤ 0 then 0
      else if clampedSpend p equity stop < p.min_order_krw then 0
      else clampedSpend p equity stop := by
  unfold krw_spend
  rw [size_from_stop_pct_eq]
  by_cases h1 : stop ≤ 0
  · rw [if_pos h1, if_pos h1]; rfl
  · rw [if_neg h1, if_neg h1]
    by_cases h2 : clampedSpend p equity stop < p.min_order_krw
    · rw [if_pos h2, if_pos h2]; rfl
    · rw [if_neg h2, if_neg h2]

/-- Lemma: `clamp` is monotone in its argument. -/
theorem clamp_mono_x {x y lo hi : ℚ} (h : x ≤ y) :
    clamp x lo hi ≤ clamp y lo hi := by
  unfold clamp
  exact max_le_max le_rfl (min_le_min le_rfl h)

/-- Lemma: `clamp` to `[0, hi]` is nonnegative. -/
theorem clamp_nonneg_lo (x hi : ℚ) : 0 ≤ clamp x 0 hi := le_max_left 0 _

/-- Lemma: `clamp` to `[0, hi]` with `0 ≤ hi` is at most `hi`. -/
theorem clamp_le_hi {hi : ℚ} (x : ℚ) (h : 0 ≤ hi) : clamp x 0 hi ≤ hi :=
  max_le h (min_le_left _ _)

/-- Lemma: `clamp` to `[0, hi]` of a nonpositive value is `0`. -/
theorem clamp_of_nonpos {x hi : ℚ} (h : x ≤ 0) : clamp x 0 hi = 0 :=
  max_eq_left ((min_le_right hi x).trans h)

/-- The below-minimum cut `v ↦ if v < m then 0 else v` is monotone on
nonnegative inputs. -/
theorem cut_mono {x y m : ℚ} (hx : 0 ≤ x) (hxy : x ≤ y) :
    (if x < m then 0 else x) ≤ (if y < m then 0 else y) := by
  by_cases h1 : x < m
  · rw [if_pos h1]
    by_cases h2 : y < m
    · rw [if_pos h2]
    · rw [if_neg h2]; exact hx.trans hxy
  · rw [if_neg h1, if_neg (fun h2 => h1 (lt_of_le_of_lt hxy h2))]
    exact hxy

/-- Claim C7: with `equity ≥ 0` (and a nonnegative allocation cap
percentage, as configured), the spend amount is non-decreasing in
`risk_per_trade_pct`, non-increasing in `stop_pct`, and always at most
`equity * max_allocation_pct / 100`. -/
theorem sizer_monotone_and_capped (p : PositionSizer) (equity : ℚ)
    (he : 0 ≤ equity) (hm : 0 ≤ p.max_allocation_pct) :
    (∀ r1 r2 stop : ℚ, r1 ≤ r2 →
      krw_spend { p with risk_per_trade_pct := r1 } equity stop ≤
        krw_spend { p with risk_per_trade_pct := r2 } equity stop) ∧
    (∀ s1 s2 : ℚ, 0 < s1 → s1 ≤ s2 →
      krw_spend p equity s2 ≤ krw_spend p equity s1) ∧
    (∀ stop : ℚ, krw_spend p equity stop ≤ equity * p.max_allocation_pct / 100) := by
  have hcap : 0 ≤ equity * (p.max_allocation_pct / 100) :=
    mul_nonneg he (div_nonneg hm (by norm_num))
  refine ⟨?_, ?_, ?_⟩
  · intro r1 r2 stop h12
    rw [krw_spend_eq, krw_spend_eq]
    dsimp only
    by_cases h1 : stop ≤ 0
    · rw [if_pos h1, if_pos h1]
    · rw [if_neg h1, if_neg h1]
      have hD : (0:ℚ) < max (stop + p.fee_roundtrip_pct / 100) (1/1000000000) :=
        lt_max_of_lt_right (by norm_num)
      have hcl : clampedSpend { p with risk_per_trade_pct := r1 } equity stop ≤
          clampedSpend { p with risk_per_trade_pct := r2 } equity stop := by
        unfold clampedSpend
        dsimp only
        exact clamp_mono_x ((div_le_div_iff_of_pos_right hD).mpr
          (mul_le_mul_of_nonneg_left (by linarith) he))
      exact cut_mono (clamp_nonneg_lo _ _) hcl
  · intro s1 s2 hs1 h12
    rw [krw_spend_eq, krw_spend_eq]
    rw [if_neg (not_le.mpr hs1), if_neg (not_le.mpr (hs1.trans_le h12))]
    have hD1 : (0:ℚ) < max (s1 + p.fee_roundtrip_pct / 100) (1/1000000000) :=
      lt_max_of_lt_right (by norm_num)
    have hD2 : (0:ℚ) < max (s2 + p.fee_roundtrip_pct / 100) (1/1000000000) :=
      lt_max_of_lt_right (by norm_num)
    rcases lt_or_le (equity * (p.risk_per_trade_pct / 100)) 0 with hrb | hrb
    · have hz1 : clampedSpend p equity s1 = 0 := by
        unfold clampedSpend
        exact clamp_of_nonpos (div_neg_of_neg_of_pos hrb hD1).le
      have hz2 : clampedSpend p equity s2 = 0 := by
        unfold clampedSpend
        exact clamp_of_nonpos (div_neg_of_neg_of_pos hrb hD2).le
      rw [hz1, hz2]
    · have hD12 : max (s1 + p.fee_roundtrip_pct / 100) (1/1000000000) ≤
          max (s2 + p.fee_roundtrip_pct / 100) (1/1000000000) :=
        max_le_max (by linarith) le_rfl
      have hcl : clampedSpend p equity s2 ≤ clampedSpend p equity s1 := by
        unfold clampedSpend
        exact clamp_mono_x (div_le_div_of_nonneg_left hrb hD1 hD12)
      exact cut_mono (clamp_nonneg_lo _ _) hcl
  · intro stop
    rw [krw_spend_eq]
    have hcap' : equity * (p.max_allocation_pct / 100) =
        equity * p.max_allocation_pct / 100 := by ring
    by_cases h1 : stop ≤ 0
    · rw [if_pos h1]; linarith
    · rw [if_neg h1]
      by_cases h2 : clampedSpend p equity stop < p.min_order_krw
      · rw [if_pos h2]; linarith
      · rw [if_neg h2]
        have hle : clampedSpend p equity stop ≤ equity * (p.max_allocation_pct / 100) := by
          unfold clampedSpend
          exact clamp_le_hi _ hcap
        linarith

/-- Witness for C7 at the default sizer configuration and equity
1,000,000. -/
theorem sizer_monotone_and_capped_witness :
    ((0:ℚ) ≤ 1000000 ∧ (0:ℚ) ≤ defaultSizer.max_allocation_pct) ∧
    ((∀ r1 r2 stop : ℚ, r1 ≤ r2 →
      krw_spend { defaultSizer with risk_per_trade_pct := r1 } 1000000 stop ≤
        krw_spend { defaultSizer with risk_per_trade_pct := r2 } 1000000 stop) ∧
    (∀ s1 s2 : ℚ, 0 < s1 → s1 ≤ s2 →
      krw_spend defaultSizer 1000000 s2 ≤ krw_spend defaultSizer 1000000 s1) ∧
    (∀ stop : ℚ, krw_spend defaultSizer 1000000 stop ≤
      1000000 * defaultSizer.max_allocation_pct / 100)) :=
  ⟨⟨by norm_num, by norm_num [defaultSizer]⟩,
    sizer_monotone_and_capped defaultSizer 1000000 (by norm_num)
      (by norm_num [defaultSizer])⟩

/-- Counterexample to claim C6 as stated: at the default configuration
with equity 40000 and stop 0.01, the unclamped value is 120000/11 ≈
10909 ≥ minOrderAmount = 5000, yet the sizer returns the zero sizing
because the allocation cap (4000) pulls the spend below the minimum. -/
theorem size_zero_iff_counterexample :
    ¬ (defaultSizer.size_from_stop_pct 40000 (1/100) none = zeroSizing ↔
      ((1:ℚ)/100 ≤ 0 ∨ specUnclampedSpend defaultSizer 40000 (1/100) < 5000)) := by
  have hcl : clampedSpend defaultSizer 40000 (1/100) = 4000 := by
    norm_num [clampedSpend, defaultSizer, clamp, max_def, min_def]
  have h1 : defaultSizer.size_from_stop_pct 40000 (1/100) none = zeroSizing := by
    rw [size_from_stop_pct_eq, if_neg (by norm_num), hcl,
      if_pos (by norm_num [defaultSizer])]
  have h2 : ¬ ((1:ℚ)/100 ≤ 0 ∨ specUnclampedSpend defaultSizer 40000 (1/100) < 5000) := by
    norm_num [specUnclampedSpend, defaultSizer]
  intro hiff
  exact h2 (hiff.mp h1)

/-- Claim C6, amended: with a positive configured minimum order amount,
`size_from_stop_pct` returns the zero sizing exactly when `stop_pct ≤ 0`
or the *cap-clamped* spend amount is below the minimum order amount
(and, being a total function, it never raises). -/
theorem size_zero_iff_min_pos (p : PositionSizer) (hmin : 0 < p.min_order_krw)
    (equity stop : ℚ) (price : Option ℚ) :
    p.size_from_stop_pct equity stop price = zeroSizing ↔
      stop ≤ 0 ∨ clampedSpend p equity stop < p.min_order_krw := by
  rw [size_from_stop_pct_eq]
  by_cases h1 : stop ≤ 0
  · simp [h1]
  · rw [if_neg h1]
    by_cases h2 : clampedSpend p equity stop < p.min_order_krw
    · simp [h1, h2]
    · rw [if_neg h2]
      have hpos : (0:ℚ) < clampedSpend p equity stop :=
        lt_of_lt_of_le hmin (not_lt.mp h2)
      constructor
      · intro heq
        exfalso
        rcases price with _ | pr
        · rw [zeroSizing, PositionSizeResult.mk.injEq] at heq
          exact absurd heq.1 hpos.ne'
        · rw [zeroSizing, PositionSizeResult.mk.injEq] at heq
          exact absurd heq.1 hpos.ne'
      · intro hor
        rcases hor with h | h
        · exact absurd h h1
        · exact absurd h h2

/-- Witness for the amended C6: the cap-starved case of the
counterexample satisfies the corrected characterisation. -/
theorem size_zero_iff_min_pos_witness :
    (0:ℚ) < defaultSizer.min_order_krw ∧
    (defaultSizer.size_from_stop_pct 40000 (1/100) none = zeroSizing ↔
      ((1:ℚ)/100 ≤ 0 ∨
        clampedSpend defaultSizer 40000 (1/100) < defaultSizer.min_order_krw)) :=
  ⟨by norm_num [defaultSizer],
    size_zero_iff_min_pos defaultSizer (by norm_num [defaultSizer]) 40000 (1/100) none⟩

/-- The risk-engine state returned by `can_trade` is the state after the
lazy day initialization and the day-rollover check; the verdict ifs do
not touch it. -/
theorem can_trade_snd (r : RiskEngine) (b now : ℚ) :
    (r.can_trade b now).2 =
      (if r.current_day = none then r.reset_day b now else r).check_new_day b now := by
  simp only [RiskEngine.can_trade]
  split <;> split <;> first
  | rfl
  | (split <;> rfl)

/-- The risk-engine state returned by `evaluate_entry` is exactly the
state its embedded `can_trade` call leaves behind. -/
theorem evaluate_entry_snd (re : RiskEngine) (sizer : PositionSizer)
    (equity now price : ℚ) (stop_pct atr_pct : Option ℚ) (m : ℚ) :
    (evaluate_entry re sizer equity now price stop_pct atr_pct m).2 =
      (re.can_trade equity now).2 := by
  rcases stop_pct with _ | sp
  · rcases atr_pct with _ | ap
    · simp only [evaluate_entry]
      split <;> rfl
    · simp only [evaluate_entry]
      split
      · split <;> rfl
      · rfl
  · simp only [evaluate_entry]
    split
    · split <;> rfl
    · rfl

/-- Counterexample to claim C2 as stated: on a fresh risk engine (no
day anchor yet) `evaluate_entry` does mutate the risk gate — the lazy
day initialization inside `can_trade` sets the anchor. -/
theorem evaluate_entry_mutates_counterexample :
    (evaluate_entry defaultRiskEngine defaultSizer 1000000 0 100
      (some (9/1000)) none 1).2 ≠ defaultRiskEngine := by
  intro h
  have h2 := congrArg RiskEngine.current_day h
  rw [evaluate_entry_snd, can_trade_snd] at h2
  simp [defaultRiskEngine, RiskEngine.check_new_day, RiskEngine.reset_day] at h2

/-- Claim C2, amended: when the stored day anchor is set and equals
`now`'s calendar date, `evaluate_entry` leaves the risk gate's state
unchanged for every combination of equity, price and stop inputs;
mutation can happen only through the day rollover inside `can_trade`
(or through `record_trade_result`, which `evaluate_entry` never calls). -/
theorem evaluate_entry_no_mutation_same_day (re : RiskEngine)
    (sizer : PositionSizer) (equity now price : ℚ)
    (stop_pct atr_pct : Option ℚ) (m : ℚ)
    (h : re.current_day = some (dateOf now)) :
    (evaluate_entry re sizer equity now price stop_pct atr_pct m).2 = re := by
  rw [evaluate_entry_snd, can_trade_snd]
  rw [if_neg (by simp [h])]
  unfold RiskEngine.check_new_day
  rw [if_neg (by simp [h])]

/-- Witness for the amended C2: an engine anchored to today, carrying a
loss streak and a live cooldown, is untouched by `evaluate_entry`. -/
theorem evaluate_entry_no_mutation_same_day_witness :
    sameDayEngine.current_day = some (dateOf 0) ∧
    (evaluate_entry sameDayEngine defaultSizer 1000000 0 100
      (some (9/1000)) none 1).2 = sameDayEngine := by
  have hday : sameDayEngine.current_day = some (dateOf 0) := by
    simp [sameDayEngine, dateOf]
  exact ⟨hday, evaluate_entry_no_mutation_same_day sameDayEngine defaultSizer
    1000000 0 100 (some (9/1000)) none 1 hday⟩

/-- Claim C4: `record_trade_result` increments the loss streak on
`pnl < 0` and resets it to 0 otherwise; a loss that brings the streak to
`max_consecutive_losses` sets `cooldown_until = now + cooldown_minutes`;
and while the cooldown is live (`t < cooldown_until`) on the same
calendar day as the anchor, with the daily-loss limit not exceeded,
`can_trade` returns false. -/
theorem record_result_streak_and_cooldown (r : RiskEngine) (pnl now b t cu : ℚ) :
    ((r.record_trade_result pnl now).consecutive_losses =
      if pnl < 0 then r.consecutive_losses + 1 else 0) ∧
    (pnl < 0 → r.max_consecutive_losses ≤ r.consecutive_losses + 1 →
      (r.record_trade_result pnl now).cooldown_until =
        some (now + r.cooldown_minutes)) ∧
    (r.cooldown_until = some cu → t < cu → r.current_day = some (dateOf t) →
      r.daily_loss_exceeded b = false → (r.can_trade b t).1 = false) := by
  refine ⟨?_, ?_, ?_⟩
  · by_cases h : pnl < 0
    · simp only [RiskEngine.record_trade_result, if_pos h]
      split <;> rfl
    · simp only [RiskEngine.record_trade_result, if_neg h]
      split <;> rfl
  · intro h hmax
    simp only [RiskEngine.record_trade_result, if_pos h]
    rw [if_pos (show ({r with consecutive_losses := r.consecutive_losses + 1} :
      RiskEngine).max_consecutive_losses ≤ r.consecutive_losses + 1 from hmax)]
  · intro hcu ht hday hdle
    have hr2 : (if r.current_day = none then r.reset_day b t else r).check_new_day b t = r := by
      rw [if_neg (by simp [hday])]
      unfold RiskEngine.check_new_day
      rw [if_neg (by simp [hday])]
    simp only [RiskEngine.can_trade, hr2]
    simp [hdle, RiskEngine.in_cooldown, hcu, ht]

/-- Witness for C4: one more loss on a streak of 0 with
`max_consecutive_losses = 1` arms the cooldown, and `can_trade` is
blocked while the pre-set cooldown is live. -/
theorem record_result_streak_and_cooldown_witness :
    ((cooldownEngine.record_trade_result (-5) 0).consecutive_losses =
      if (-5 : ℚ) < 0 then cooldownEngine.consecutive_losses + 1 else 0) ∧
    ((cooldownEngine.record_trade_result (-5) 0).cooldown_until =
      some (0 + cooldownEngine.cooldown_minutes)) ∧
    ((cooldownEngine.can_trade 100 0).1 = false) := by
  have T := record_result_streak_and_cooldown cooldownEngine (-5) 0 100 0 60
  refine ⟨T.1, T.2.1 (by norm_num) (by norm_num [cooldownEngine]), ?_⟩
  exact T.2.2 rfl (by norm_num) (by simp [cooldownEngine, dateOf])
    (by simp [RiskEngine.daily_loss_exceeded, RiskEngine.daily_loss_pct, cooldownEngine])

/-- Claim C5: whenever the stored day anchor is absent or differs from
`now`'s calendar date, `can_trade` resets the start-of-day balance to
the passed balance, the loss streak to 0 and the cooldown to none, and
re-anchors to `now`'s date — regardless of prior losses or an active
cooldown. -/
theorem can_trade_day_rollover_resets (r : RiskEngine) (b now : ℚ)
    (h : r.current_day = none ∨ r.current_day ≠ some (dateOf now)) :
    ((r.can_trade b now).2).start_of_day_balance = some b ∧
    ((r.can_trade b now).2).consecutive_losses = 0 ∧
    ((r.can_trade b now).2).cooldown_until = none ∧
    ((r.can_trade b now).2).current_day = some (dateOf now) := by
  rw [can_trade_snd]
  rcases h' : r.current_day with _ | d
  · rw [if_pos rfl]
    unfold RiskEngine.check_new_day
    rw [if_neg (by simp [RiskEngine.reset_day])]
    simp [RiskEngine.reset_day]
  · have hne : r.current_day ≠ some (dateOf now) := by
      rcases h with h0 | h0
      · rw [h'] at h0; exact absurd h0 (by simp)
      · exact h0
    rw [if_neg (by simp)]
    unfold RiskEngine.check_new_day
    rw [if_pos hne]
    simp [RiskEngine.reset_day]

/-- Witness for C5: the first-ever call (no anchor yet) anchors to
`now`'s date and installs the passed balance, clearing streak and
cooldown. -/
theorem can_trade_day_rollover_resets_witness :
    (defaultRiskEngine.current_day = none ∨
      defaultRiskEngine.current_day ≠ some (dateOf 0)) ∧
    ((defaultRiskEngine.can_trade 500 0).2).start_of_day_balance = some 500 ∧
    ((defaultRiskEngine.can_trade 500 0).2).consecutive_losses = 0 ∧
    ((defaultRiskEngine.can_trade 500 0).2).cooldown_until = none ∧
    ((defaultRiskEngine.can_trade 500 0).2).current_day = some (dateOf 0) :=
  ⟨Or.inl rfl, can_trade_day_rollover_resets defaultRiskEngine 500 0 (Or.inl rfl)⟩

/-- Bucketing is monotone in the timestamp. -/
theorem bucket5m_mono {a b : ℕ} (h : a ≤ b) : bucket5m a ≤ bucket5m b :=
  mul_le_mul_right' (Nat.div_le_div_right h) 300000

/-- Every candle the builder emits, and the final in-progress candle,
satisfy the OHLC bounds, for every tick sequence whatsoever. -/
theorem runTicks_ohlc (ticks : List Tick) (cur : Option Candle)
    (hcur : ∀ c, cur = some c → OHLCok c) :
    (∀ d ∈ (runTicks cur ticks).2, OHLCok d) ∧
    (∀ c, (runTicks cur ticks).1 = some c → OHLCok c) := by
  induction ticks generalizing cur with
  | nil =>
      refine ⟨by simp [runTicks], ?_⟩
      intro c h
      simp only [runTicks] at h
      exact hcur c h
  | cons t rest ih =>
      rcases cur with _ | c
      · have h0 : OHLCok ⟨bucket5m t.tms, t.price, t.price, t.price, t.price, t.vol⟩ :=
          ⟨le_rfl, le_rfl, le_rfl, le_rfl⟩
        have H := ih (some ⟨bucket5m t.tms, t.price, t.price, t.price, t.price, t.vol⟩)
          (fun d hd => (Option.some_inj.mp hd) ▸ h0)
        constructor
        · intro d hd
          exact H.1 d (by simpa [runTicks, update_trade] using hd)
        · intro c2 hc2
          exact H.2 c2 (by simpa [runTicks, update_trade] using hc2)
      · have hcok := hcur c rfl
        by_cases hb : c.time = bucket5m t.tms
        · have h1 : OHLCok ⟨c.time, c.open_, max c.high t.price, min c.low t.price,
              t.price, c.volume + t.vol⟩ :=
            ⟨(min_le_left _ _).trans hcok.1, hcok.2.1.trans (le_max_left _ _),
              min_le_right _ _, le_max_right _ _⟩
          have H := ih (some ⟨c.time, c.open_, max c.high t.price, min c.low t.price,
              t.price, c.volume + t.vol⟩) (fun d hd => (Option.some_inj.mp hd) ▸ h1)
          constructor
          · intro d hd
            exact H.1 d (by simpa [runTicks, update_trade, hb] using hd)
          · intro c2 hc2
            exact H.2 c2 (by simpa [runTicks, update_trade, hb] using hc2)
        · have h0 : OHLCok ⟨bucket5m t.tms, t.price, t.price, t.price, t.price, t.vol⟩ :=
            ⟨le_rfl, le_rfl, le_rfl, le_rfl⟩
          have H := ih (some ⟨bucket5m t.tms, t.price, t.price, t.price, t.price, t.vol⟩)
            (fun d hd => (Option.some_inj.mp hd) ▸ h0)
          constructor
          · intro d hd
            have hd' : d = c ∨ d ∈ (runTicks (some ⟨bucket5m t.tms, t.price, t.price,
                t.price, t.price, t.vol⟩) rest).2 := by
              simpa [runTicks, update_trade, hb] using hd
            rcases hd' with rfl | hd'
            · exact hcok
            · exact H.1 d hd'
          · intro c2 hc2
            exact H.2 c2 (by simpa [runTicks, update_trade, hb] using hc2)

/-- When ticks arrive with non-decreasing timestamps, the emitted
candles' buckets are pairwise strictly increasing, and every emitted
candle's bucket is at least the initial in-progress candle's bucket. -/
theorem runTicks_mono (ticks : List Tick) (cur : Option Candle)
    (hord : List.Pairwise (fun a b : Tick => a.tms ≤ b.tms) ticks)
    (hcur : ∀ c, cur = some c → ∀ t ∈ ticks, c.time ≤ bucket5m t.tms) :
    List.Pairwise (· < ·) ((runTicks cur ticks).2.map Candle.time) ∧
    (∀ d ∈ (runTicks cur ticks).2, ∀ c, cur = some c → c.time ≤ d.time) := by
  induction ticks generalizing cur with
  | nil => simp [runTicks]
  | cons t rest ih =>
      obtain ⟨hhead, hrest⟩ := List.pairwise_cons.mp hord
      have hbmono : ∀ t' ∈ rest, bucket5m t.tms ≤ bucket5m t'.tms :=
        fun t' ht' => bucket5m_mono (hhead t' ht')
      rcases cur with _ | c
      · have H := ih (some ⟨bucket5m t.tms, t.price, t.price, t.price, t.price, t.vol⟩)
          hrest (fun d hd => (Option.some_inj.mp hd) ▸ hbmono)
        constructor
        · simpa [runTicks, update_trade] using H.1
        · intro d _ c0 hc0
          exact Option.noConfusion hc0
      · by_cases hb : c.time = bucket5m t.tms
        · have H := ih (some ⟨c.time, c.open_, max c.high t.price, min c.low t.price,
              t.price, c.volume + t.vol⟩) hrest
            (fun d hd t' ht' => by
              rw [← Option.some_inj.mp hd]
              show c.time ≤ bucket5m t'.tms
              rw [hb]
              exact hbmono t' ht')
          constructor
          · simpa [runTicks, update_trade, hb] using H.1
          · intro d hd c0 hc0
            have hd' : d ∈ (runTicks (some ⟨c.time, c.open_, max c.high t.price,
                min c.low t.price, t.price, c.volume + t.vol⟩) rest).2 := by
              simpa [runTicks, update_trade, hb] using hd
            rw [← Option.some_inj.mp hc0]
            exact H.2 d hd' ⟨c.time, c.open_, max c.high t.price, min c.low t.price,
              t.price, c.volume + t.vol⟩ rfl
        · have hle : c.time ≤ bucket5m t.tms :=
            hcur c rfl t (List.mem_cons_self t rest)
          have hlt : c.time < bucket5m t.tms := lt_of_le_of_ne hle hb
          have H := ih (some ⟨bucket5m t.tms, t.price, t.price, t.price, t.price, t.vol⟩)
            hrest (fun d hd => (Option.some_inj.mp hd) ▸ hbmono)
          have hmap : (runTicks (some c) (t :: rest)).2.map Candle.time =
              c.time :: ((runTicks (some ⟨bucket5m t.tms, t.price, t.price, t.price,
                t.price, t.vol⟩) rest).2.map Candle.time) := by
            simp [runTicks, update_trade, hb]
          constructor
          · rw [hmap]
            refine List.pairwise_cons.mpr ⟨?_, H.1⟩
            intro x hx
            obtain ⟨d, hd, rfl⟩ := List.mem_map.mp hx
            exact lt_of_lt_of_le hlt (H.2 d hd _ rfl)
          · intro d hd c0 hc0
            rw [← Option.some_inj.mp hc0]
            have hd' : d = c ∨ d ∈ (runTicks (some ⟨bucket5m t.tms, t.price, t.price,
                t.price, t.price, t.vol⟩) rest).2 := by
              simpa [runTicks, update_trade, hb] using hd
            rcases hd' with rfl | hd'
            · exact le_rfl
            · exact (hlt.trans_le (H.2 d hd' _ rfl)).le

/-- Counterexample to claim C9 as stated: for out-of-order ticks
(buckets 3000000, 0, 3000000) the closed candles are emitted with
buckets 3000000 then 0 — not strictly increasing.  The strict-increase
guarantee needs the ticks to arrive in timestamp order. -/
theorem candle_buckets_counterexample :
    ¬ List.Pairwise (fun a b : ℕ => a < b)
      ((runTicks none badTicks).2.map Candle.time) := by
  intro h
  have hmap : (runTicks none badTicks).2.map Candle.time = [3000000, 0] := by
    simp [badTicks, runTicks, update_trade, bucket5m]
  rw [hmap] at h
  have := List.pairwise_cons.mp h
  exact absurd (this.1 0 (by simp)) (by norm_num)

/-- Claim C9, amended: every candle the aggregator emits satisfies
`low ≤ open ≤ high` and `low ≤ close ≤ high` for every tick sequence;
and when the ticks are fed in non-decreasing timestamp order, the closed
candles' time buckets are strictly increasing. -/
theorem candle_buckets_and_ohlc (ticks : List Tick) :
    (∀ d ∈ (runTicks none ticks).2, OHLCok d) ∧
    (List.Pairwise (fun a b : Tick => a.tms ≤ b.tms) ticks →
      List.Pairwise (· < ·) ((runTicks none ticks).2.map Candle.time)) :=
  ⟨(runTicks_ohlc ticks none (fun _ hc => Option.noConfusion hc)).1,
    fun hord => (runTicks_mono ticks none hord
      (fun _ hc => Option.noConfusion hc)).1⟩

/-- Witness for the amended C9 on a concrete ordered tick stream
crossing two bucket boundaries. -/
theorem candle_buckets_and_ohlc_witness :
    List.Pairwise (fun a b : Tick => a.tms ≤ b.tms) goodTicks ∧
    (∀ d ∈ (runTicks none goodTicks).2, OHLCok d) ∧
    List.Pairwise (· < ·) ((runTicks none goodTicks).2.map Candle.time) := by
  have hord : List.Pairwise (fun a b : Tick => a.tms ≤ b.tms) goodTicks := by
    simp [goodTicks, List.pairwise_cons]
  exact ⟨hord, (candle_buckets_and_ohlc goodTicks).1,
    (candle_buckets_and_ohlc goodTicks).2 hord⟩
